import Mathlib

/-!
Verification of the predicate-based message-waiting core of the
kraken-ws-tests repository (utils/ws-helper.ts).

The repository contains two WebSocket client helpers:

* the default-export `KrakenClient` with a `messageHandlers : Set` registry,
  `waitFor(condition, count, timeout)` (collect `count` matching messages or
  reject on timeout) and `waitForSilence(condition, timeout)` (reject on the
  first matching message, resolve when the window elapses), and
* an older named-export `KrakenClient` whose `waitFor(predicate, timeout)`
  resolves with the first matching message.

The embedding below models one waiter of the default-export client as a state
machine driven by timed events (`message` deliveries and the `setTimeout`
timer firing), exactly mirroring the handler/cleanup/timer code; the dispatch
fan-out (`messageHandlers.forEach`) is modelled separately, including JS
`Set.prototype.forEach` live-iteration semantics and the behaviour of
throwing predicates.
-/

namespace KrakenWS

-- Inbound decoded messages are opaque to the core: the embedding is
-- polymorphic in the message type `Msg`.
variable {Msg : Type}

/-- Waiter mode: `collect count` for `waitFor(condition, count, timeout)`
(resolve once `results.length === count`), `silence` for
`waitForSilence(condition, timeout)` (reject on the first match). -/
inductive Mode where
  | collect (count : Nat)
  | silence
deriving DecidableEq

/-- The exact string of `new Error('Message received during silence window')`
that `waitForSilence` rejects with.  It is a constant: the rejection carries
no other payload. -/
def silenceErrorMessage : String := "Message received during silence window"

/-- The text of the `Error` that `waitFor` rejects with on timeout:
`Timeout: Only received RESULTS/COUNT messages`.  Its only variable parts are
the partial count and the target count. -/
def timeoutErrorText (received target : Nat) : String :=
  "Timeout: Only received " ++ toString received ++ "/" ++ toString target ++ " messages"

/-- Terminal outcome of one `waitFor` / `waitForSilence` promise.
`timeoutErr received target` records the two numbers interpolated into the
rejection message (`timeoutErrorText`); `unexpectedErr` records the rejection
message of a failed silence wait, which in the source is the constant
`silenceErrorMessage`. -/
inductive Outcome (Msg : Type) where
  | resolvedList (msgs : List Msg)
  | timeoutErr (received target : Nat)
  | silenceOk
  | unexpectedErr (err : String)
deriving DecidableEq

/-- Events seen by one waiter: delivery of a decoded message by the
`ws.on('message')` dispatcher at time `t`, or the waiter's `setTimeout` timer
firing at time `t`. -/
inductive Event (Msg : Type) where
  | msg (t : Nat) (m : Msg)
  | timerFire (t : Nat)
deriving DecidableEq

/-- State of one waiter of the default-export client:
`inRegistry` — the handler closure is in `messageHandlers`;
`timerActive` — the `setTimeout` timer has been neither cleared nor fired;
`results` — the accumulated matching messages (collect mode);
`outcome` — the settled value of the promise, if settled;
`settledAt` — the time of the event that settled the promise. -/
structure WaiterSt (Msg : Type) where
  inRegistry : Bool
  timerActive : Bool
  results : List Msg
  outcome : Option (Outcome Msg)
  settledAt : Option Nat
deriving DecidableEq

/-- A waiter right after registration: handler added, timer started, empty
accumulator, promise pending. -/
def waiterInit : WaiterSt Msg := ⟨true, true, [], none, none⟩

/-- One step of the waiter, translating the handler and timer callbacks of
`waitFor` / `waitForSilence`:

* message delivery reaches the handler only while it is still in
  `messageHandlers`; on `condition(msg)` the collect handler pushes the
  message and, if `results.length === count`, runs `cleanup()`
  (`clearTimeout` + `messageHandlers.delete`) and resolves with `results`;
  the silence handler runs `cleanup()` and rejects with the constant error;
* the timer callback runs only if the timer was not cleared; it runs
  `cleanup()` and rejects (collect: `Timeout: Only received r/c messages`)
  resp. resolves (silence). -/
def waiterStep (cond : Msg → Bool) (mode : Mode) (st : WaiterSt Msg) : Event Msg → WaiterSt Msg
  | .msg t m =>
    if st.inRegistry then
      if cond m then
        match mode with
        | .collect count =>
          let results := st.results ++ [m]
          if results.length = count then
            { inRegistry := false, timerActive := false, results := results,
              outcome := some (.resolvedList results), settledAt := some t }
          else
            { st with results := results }
        | .silence =>
          { st with
            inRegistry := false, timerActive := false,
            outcome := some (.unexpectedErr silenceErrorMessage), settledAt := some t }
      else st
    else st
  | .timerFire t =>
    if st.timerActive then
      match mode with
      | .collect count =>
        { st with
          inRegistry := false, timerActive := false,
          outcome := some (.timeoutErr st.results.length count), settledAt := some t }
      | .silence =>
        { st with
          inRegistry := false, timerActive := false,
          outcome := some .silenceOk, settledAt := some t }
    else st

/-- The messages of a timed trace that are dispatched strictly before the
waiter's timer fires at `timeout`. -/
def delivered (timeout : Nat) (trace : List (Nat × Msg)) : List (Nat × Msg) :=
  trace.filter (fun tm => tm.1 < timeout)

/-- The message events of a timed trace, in receipt order. -/
def msgEvents (ms : List (Nat × Msg)) : List (Event Msg) :=
  ms.map (fun tm => Event.msg tm.1 tm.2)

/-- The event sequence seen by a waiter with the given timeout: all messages
dispatched strictly before `timeout`, in receipt order, then the timer
firing at `timeout`.  (Messages at or after `timeout` find the handler
already deregistered and are omitted.) -/
def eventsOf (timeout : Nat) (trace : List (Nat × Msg)) : List (Event Msg) :=
  msgEvents (delivered timeout trace) ++ [Event.timerFire timeout]

/-- Run one waiter over a timed trace. -/
def runWait (cond : Msg → Bool) (mode : Mode) (timeout : Nat)
    (trace : List (Nat × Msg)) : WaiterSt Msg :=
  (eventsOf timeout trace).foldl (waiterStep cond mode) waiterInit

/-- `waitFor(condition, count, timeout)` of the default-export client over a
timed trace.  After the timer event the promise is always settled, so the
`getD` default is unreachable. -/
def waitFor (cond : Msg → Bool) (count timeout : Nat)
    (trace : List (Nat × Msg)) : Outcome Msg :=
  (runWait cond (Mode.collect count) timeout trace).outcome.getD (Outcome.timeoutErr 0 count)

/-- `waitForSilence(condition, timeout)` of the default-export client over a
timed trace.  After the timer event the promise is always settled, so the
`getD` default is unreachable. -/
def waitForSilence (cond : Msg → Bool) (timeout : Nat)
    (trace : List (Nat × Msg)) : Outcome Msg :=
  (runWait cond Mode.silence timeout trace).outcome.getD Outcome.silenceOk

/-- The messages satisfying the predicate among those dispatched strictly
before `timeout`, in receipt order. -/
def matchesBefore (cond : Msg → Bool) (timeout : Nat)
    (trace : List (Nat × Msg)) : List Msg :=
  ((delivered timeout trace).map Prod.snd).filter cond

/-! ### The older named-export client (`waitFor(predicate, timeout)`) -/

/-- Terminal outcome of the named-export `waitFor`: it resolves with the
single matching message, or rejects with
`Wait Timeout: Message not received within Tms`. -/
inductive OldOutcome (Msg : Type) where
  | resolvedMsg (m : Msg)
  | waitTimeoutErr
deriving DecidableEq

/-- State of one named-export `waitFor` call: `listenerOn` — the `message`
listener is attached; `timerActive` — the timer has neither fired nor been
cleared; `outcome` — the settled value.  Note the source removes the
listener only on a match, not on timeout. -/
structure OldSt (Msg : Type) where
  listenerOn : Bool
  timerActive : Bool
  outcome : Option (OldOutcome Msg)
deriving DecidableEq

/-- A named-export `waitFor` call right after issuing: listener attached,
timer started, promise pending. -/
def oldInit : OldSt Msg := ⟨true, true, none⟩

/-- One step of the named-export `waitFor`: on a delivered message, if the
predicate holds, clear the timer, detach the listener and resolve; when the
timer fires, reject (the listener stays attached).  A JS promise settles at
most once, so an already-settled outcome is kept (`Option.getD`). -/
def oldStep (pred : Msg → Bool) (st : OldSt Msg) : Event Msg → OldSt Msg
  | .msg _ m =>
    if st.listenerOn then
      if pred m then
        { listenerOn := false, timerActive := false,
          outcome := some (st.outcome.getD (.resolvedMsg m)) }
      else st
    else st
  | .timerFire _ =>
    if st.timerActive then
      { st with
        timerActive := false,
        outcome := some (st.outcome.getD .waitTimeoutErr) }
    else st

/-- The named-export `waitFor(predicate, timeout)` over a timed trace. -/
def oldWaitFor (pred : Msg → Bool) (timeout : Nat)
    (trace : List (Nat × Msg)) : OldOutcome Msg :=
  ((eventsOf timeout trace).foldl (oldStep pred) oldInit).outcome.getD OldOutcome.waitTimeoutErr

/-- Observational correspondence between the two clients' outcomes: the old
variant resolves with the matching message itself, the new variant with the
singleton list containing it; both reject on timeout (the new one having
collected 0 of 1). -/
def oldToNew : OldOutcome Msg → Outcome Msg
  | .resolvedMsg m => .resolvedList [m]
  | .waitTimeoutErr => .timeoutErr 0 1

/-! ### Registry cleanup (`cleanup()` = `clearTimeout` + `messageHandlers.delete`) -/

/-- JS `Set.prototype.delete` on a registry of handler ids: removes the
element if present, no-op otherwise. -/
def setDelete (s : List Nat) (x : Nat) : List Nat :=
  s.filter (fun y => y ≠ x)

/-- The observable state touched by a waiter's `cleanup()` closure: the
`messageHandlers` registry and that waiter's timer. -/
structure CleanupObs where
  handlers : List Nat
  timerActive : Bool
deriving DecidableEq

/-- The `cleanup()` closure of `waitFor` / `waitForSilence`:
`clearTimeout(timer); this.messageHandlers.delete(handler)`.  Both calls are
no-ops when already performed. -/
def cleanup (h : Nat) (st : CleanupObs) : CleanupObs :=
  { handlers := setDelete st.handlers h, timerActive := false }

/-! ### Dispatch fan-out (`this.messageHandlers.forEach(handler => handler(msg))`)

JS `Set.prototype.forEach` iterates the live set in insertion order: elements
added to the set before traversal finishes are visited too, and each element
is visited at most once.  During the delivery of one message a handler can
re-entrantly register new handlers (a predicate issuing another `waitFor`);
a settling handler deletes only itself, after it has been visited, which
cannot change the remaining visit order, so the model tracks additions only.
Handlers are identified by ids; `adds h` is the set of ids handler `h`
registers when visited. -/

/-- JS `Set.prototype.add` on a registry of handler ids: appends in insertion
order, no-op if already present. -/
def setAdd (s : List Nat) (x : Nat) : List Nat :=
  if x ∈ s then s else s ++ [x]

/-- Add several handler ids in order. -/
def setAddAll (s : List Nat) (xs : List Nat) : List Nat :=
  xs.foldl setAdd s

/-- The visit order of JS `Set.prototype.forEach` over the live registry `s`,
starting at position `i`, where visiting handler `h` registers the handlers
`adds h`.  `fuel` bounds the number of iteration steps; with
`fuel ≥ s.length` every handler present at dispatch start is visited. -/
def forEachVisit (adds : Nat → List Nat) : Nat → List Nat → Nat → List Nat
  | 0, s, i => s.take i
  | fuel + 1, s, i =>
    match s[i]? with
    | none => s.take i
    | some h => forEachVisit adds fuel (setAddAll s (adds h)) (i + 1)

/-- The visit order claimed by the specification: a snapshot of the registry
taken at dispatch start, so handlers registered during delivery of the same
message are not visited.  (Second definition, following the spec's words,
for comparison with `forEachVisit`.) -/
def forEachSnapshot (_adds : Nat → List Nat) (s : List Nat) : List Nat :=
  s

/-! ### Delivery with throwing predicates

The source evaluates `condition(msg)` with no try/catch, inside
`messageHandlers.forEach(handler => handler(msg))`: an exception thrown by a
caller-supplied predicate propagates out of the `forEach` delivery loop.
Predicates that may throw are modelled in `Except`; the error value carries
the exception together with the registry as the loop left it (handlers after
the throwing one untouched, i.e. never given the message). -/

/-- A registered waiter whose caller-supplied predicate may throw, together
with its accumulated matches. -/
structure ExcWaiter (Msg : Type) where
  pred : Msg → Except String Bool
  results : List Msg

/-- Deliver one message to one waiter: evaluate the predicate (which may
throw); on `true` push the message. -/
def excDeliver (m : Msg) (w : ExcWaiter Msg) : Except String (ExcWaiter Msg) :=
  match w.pred m with
  | .error e => .error e
  | .ok true => .ok { w with results := w.results ++ [m] }
  | .ok false => .ok w

/-- `messageHandlers.forEach(handler => handler(msg))` when predicates may
throw: the first exception propagates out of the loop (`.error`), carrying
the exception and the registry at that point — the waiters not yet visited
are returned unchanged, having never received the message. -/
def dispatchExc (m : Msg) : List (ExcWaiter Msg) → Except (String × List (ExcWaiter Msg)) (List (ExcWaiter Msg))
  | [] => .ok []
  | w :: rest =>
    match excDeliver m w with
    | .error e => .error (e, w :: rest)
    | .ok w2 =>
      match dispatchExc m rest with
      | .error (e, rest2) => .error (e, w2 :: rest2)
      | .ok rest2 => .ok (w2 :: rest2)

/-- A waiter whose predicate always throws (a caller bug). -/
def excThrowing : ExcWaiter Nat := ⟨fun _ => .error "boom", []⟩

/-- A waiter whose predicate matches every message. -/
def excCollecting : ExcWaiter Nat := ⟨fun _ => .ok true, []⟩

/-! ### Step equations for the default-export waiter -/

lemma waiterStep_msg_notRegistered (cond : Msg → Bool) (mode : Mode) (st : WaiterSt Msg)
    (t : Nat) (m : Msg) (h : st.inRegistry = false) :
    waiterStep cond mode st (Event.msg t m) = st := by
  simp [waiterStep, h]

lemma waiterStep_msg_noMatch (cond : Msg → Bool) (mode : Mode) (st : WaiterSt Msg)
    (t : Nat) (m : Msg) (h : cond m = false) :
    waiterStep cond mode st (Event.msg t m) = st := by
  simp [waiterStep, h]

lemma waiterStep_collect_hit (cond : Msg → Bool) (count : Nat) (st : WaiterSt Msg)
    (t : Nat) (m : Msg) (hreg : st.inRegistry = true) (hc : cond m = true)
    (hlen : st.results.length + 1 = count) :
    waiterStep cond (Mode.collect count) st (Event.msg t m)
      = ⟨false, false, st.results ++ [m],
          some (Outcome.resolvedList (st.results ++ [m])), some t⟩ := by
  simp [waiterStep, hreg, hc, hlen]

lemma waiterStep_collect_grow (cond : Msg → Bool) (count : Nat) (st : WaiterSt Msg)
    (t : Nat) (m : Msg) (hreg : st.inRegistry = true) (hc : cond m = true)
    (hlen : st.results.length + 1 ≠ count) :
    waiterStep cond (Mode.collect count) st (Event.msg t m)
      = { st with results := st.results ++ [m] } := by
  simp [waiterStep, hreg, hc, hlen]

lemma waiterStep_silence_hit (cond : Msg → Bool) (st : WaiterSt Msg)
    (t : Nat) (m : Msg) (hreg : st.inRegistry = true) (hc : cond m = true) :
    waiterStep cond Mode.silence st (Event.msg t m)
      = { st with
          inRegistry := false, timerActive := false,
          outcome := some (Outcome.unexpectedErr silenceErrorMessage),
          settledAt := some t } := by
  simp [waiterStep, hreg, hc]

lemma waiterStep_timer_cleared (cond : Msg → Bool) (mode : Mode) (st : WaiterSt Msg)
    (t : Nat) (h : st.timerActive = false) :
    waiterStep cond mode st (Event.timerFire t) = st := by
  simp [waiterStep, h]

lemma waiterStep_timer_collect (cond : Msg → Bool) (count : Nat) (st : WaiterSt Msg)
    (t : Nat) (h : st.timerActive = true) :
    waiterStep cond (Mode.collect count) st (Event.timerFire t)
      = { st with
          inRegistry := false, timerActive := false,
          outcome := some (Outcome.timeoutErr st.results.length count),
          settledAt := some t } := by
  simp [waiterStep, h]

lemma waiterStep_timer_silence (cond : Msg → Bool) (st : WaiterSt Msg)
    (t : Nat) (h : st.timerActive = true) :
    waiterStep cond Mode.silence st (Event.timerFire t)
      = { st with
          inRegistry := false, timerActive := false,
          outcome := some Outcome.silenceOk,
          settledAt := some t } := by
  simp [waiterStep, h]

/-- A deregistered waiter with a cleared timer is inert: no event changes it. -/
lemma waiterStep_frozen (cond : Msg → Bool) (mode : Mode) (st : WaiterSt Msg)
    (e : Event Msg) (h1 : st.inRegistry = false) (h2 : st.timerActive = false) :
    waiterStep cond mode st e = st := by
  cases e with
  | msg t m => exact waiterStep_msg_notRegistered cond mode st t m h1
  | timerFire t => exact waiterStep_timer_cleared cond mode st t h2

lemma foldl_waiterStep_frozen (cond : Msg → Bool) (mode : Mode) :
    ∀ (es : List (Event Msg)) (st : WaiterSt Msg),
      st.inRegistry = false → st.timerActive = false →
      es.foldl (waiterStep cond mode) st = st := by
  intro es
  induction es with
  | nil => intro st _ _; rfl
  | cons e es ih =>
    intro st h1 h2
    rw [List.foldl_cons, waiterStep_frozen cond mode st e h1 h2]
    exact ih st h1 h2

/-- Every step either leaves the state unchanged, only grows the accumulator,
or ends with the waiter deregistered and its timer cleared. -/
lemma waiterStep_shape (cond : Msg → Bool) (mode : Mode) (st : WaiterSt Msg) (e : Event Msg) :
    waiterStep cond mode st e = st
      ∨ (∃ r, waiterStep cond mode st e = { st with results := r })
      ∨ ((waiterStep cond mode st e).inRegistry = false
          ∧ (waiterStep cond mode st e).timerActive = false) := by
  cases e with
  | msg t m =>
    cases hreg : st.inRegistry with
    | false => exact Or.inl (waiterStep_msg_notRegistered cond mode st t m hreg)
    | true =>
      cases hc : cond m with
      | false => exact Or.inl (waiterStep_msg_noMatch cond mode st t m hc)
      | true =>
        cases mode with
        | collect count =>
          by_cases hlen : st.results.length + 1 = count
          · refine Or.inr (Or.inr ?_)
            rw [waiterStep_collect_hit cond count st t m hreg hc hlen]
            exact ⟨rfl, rfl⟩
          · refine Or.inr (Or.inl ⟨st.results ++ [m], ?_⟩)
            rw [waiterStep_collect_grow cond count st t m hreg hc hlen, hreg]
        | silence =>
          refine Or.inr (Or.inr ?_)
          rw [waiterStep_silence_hit cond st t m hreg hc]
          exact ⟨rfl, rfl⟩
  | timerFire t =>
    cases htim : st.timerActive with
    | false => exact Or.inl (waiterStep_timer_cleared cond mode st t htim)
    | true =>
      refine Or.inr (Or.inr ?_)
      cases mode with
      | collect count =>
        rw [waiterStep_timer_collect cond count st t htim]
        exact ⟨rfl, rfl⟩
      | silence =>
        rw [waiterStep_timer_silence cond st t htim]
        exact ⟨rfl, rfl⟩

/-- Invariant preservation: a settled waiter is deregistered with a cleared
timer, and steps preserve this. -/
lemma waiterStep_inv (cond : Msg → Bool) (mode : Mode) (st : WaiterSt Msg) (e : Event Msg)
    (h : st.outcome.isSome = true → st.inRegistry = false ∧ st.timerActive = false) :
    (waiterStep cond mode st e).outcome.isSome = true →
      (waiterStep cond mode st e).inRegistry = false
        ∧ (waiterStep cond mode st e).timerActive = false := by
  rcases waiterStep_shape cond mode st e with heq | ⟨r, heq⟩ | ⟨h1, h2⟩
  · rw [heq]; exact h
  · rw [heq]; intro hs; exact h hs
  · intro _; exact ⟨h1, h2⟩

lemma foldl_waiterStep_inv (cond : Msg → Bool) (mode : Mode) :
    ∀ (es : List (Event Msg)) (st : WaiterSt Msg),
      (st.outcome.isSome = true → st.inRegistry = false ∧ st.timerActive = false) →
      ((es.foldl (waiterStep cond mode) st).outcome.isSome = true →
        (es.foldl (waiterStep cond mode) st).inRegistry = false
          ∧ (es.foldl (waiterStep cond mode) st).timerActive = false) := by
  intro es
  induction es with
  | nil => intro st h; exact h
  | cons e es ih =>
    intro st h
    rw [List.foldl_cons]
    exact ih _ (waiterStep_inv cond mode st e h)

/-! ### Runs of the collect and silence waiters over message sequences -/

lemma msgEvents_cons (tm : Nat × Msg) (ms : List (Nat × Msg)) :
    msgEvents (tm :: ms) = Event.msg tm.1 tm.2 :: msgEvents ms := rfl

/-- If at least `count - st.results.length` further matches arrive, the
collect waiter resolves with the first of them, in receipt order, appended
to the accumulator. -/
lemma collect_run_settles (cond : Msg → Bool) (count : Nat) :
    ∀ (ms : List (Nat × Msg)) (st : WaiterSt Msg),
      st.inRegistry = true →
      st.results.length < count →
      count ≤ st.results.length + ((ms.map Prod.snd).filter cond).length →
      ((msgEvents ms).foldl (waiterStep cond (Mode.collect count)) st).outcome
        = some (Outcome.resolvedList
            (st.results ++ ((ms.map Prod.snd).filter cond).take (count - st.results.length))) := by
  intro ms
  induction ms with
  | nil =>
    intro st hreg hlt hle
    exfalso
    simp at hle
    omega
  | cons tm ms ih =>
    intro st hreg hlt hle
    obtain ⟨a, b⟩ := tm
    cases hc : cond b with
    | false =>
      have hfilter : (((a, b) :: ms).map Prod.snd).filter cond
          = (ms.map Prod.snd).filter cond := by simp [hc]
      rw [hfilter] at hle ⊢
      rw [msgEvents_cons, List.foldl_cons,
        waiterStep_msg_noMatch cond (Mode.collect count) st a b hc]
      exact ih st hreg hlt hle
    | true =>
      have hfilter : (((a, b) :: ms).map Prod.snd).filter cond
          = b :: (ms.map Prod.snd).filter cond := by simp [hc]
      rw [hfilter] at hle ⊢
      simp only [List.length_cons] at hle
      by_cases hlen : st.results.length + 1 = count
      · rw [msgEvents_cons, List.foldl_cons,
          waiterStep_collect_hit cond count st a b hreg hc hlen]
        rw [foldl_waiterStep_frozen cond (Mode.collect count) (msgEvents ms) _ rfl rfl]
        have h1 : count - st.results.length = 1 := by omega
        rw [h1]
        simp
      · rw [msgEvents_cons, List.foldl_cons,
          waiterStep_collect_grow cond count st a b hreg hc hlen]
        have ihres := ih { st with results := st.results ++ [b] } hreg
          (by simp; omega) (by simp; omega)
        simp only [List.length_append, List.length_singleton] at ihres
        have h2 : count - st.results.length = (count - (st.results.length + 1)) + 1 := by omega
        rw [h2, List.take_succ_cons]
        rw [ihres]
        simp

/-- If no prospective accumulator length equals `count`, the collect waiter
never settles on a message: it stays registered with its timer running and
simply accumulates every match.  (Covers both "fewer than `count` matches
arrive" and the degenerate `count = 0`.) -/
lemma collect_run_noSettle (cond : Msg → Bool) (count : Nat) :
    ∀ (ms : List (Nat × Msg)) (st : WaiterSt Msg),
      st.inRegistry = true →
      (∀ j, st.results.length < j →
          j ≤ st.results.length + ((ms.map Prod.snd).filter cond).length → j ≠ count) →
      (msgEvents ms).foldl (waiterStep cond (Mode.collect count)) st
        = { st with results := st.results ++ (ms.map Prod.snd).filter cond } := by
  intro ms
  induction ms with
  | nil =>
    intro st hreg hjs
    simp [msgEvents]
  | cons tm ms ih =>
    intro st hreg hjs
    obtain ⟨a, b⟩ := tm
    cases hc : cond b with
    | false =>
      have hfilter : (((a, b) :: ms).map Prod.snd).filter cond
          = (ms.map Prod.snd).filter cond := by simp [hc]
      rw [hfilter] at hjs ⊢
      rw [msgEvents_cons, List.foldl_cons,
        waiterStep_msg_noMatch cond (Mode.collect count) st a b hc]
      exact ih st hreg hjs
    | true =>
      have hfilter : (((a, b) :: ms).map Prod.snd).filter cond
          = b :: (ms.map Prod.snd).filter cond := by simp [hc]
      rw [hfilter] at hjs ⊢
      simp only [List.length_cons] at hjs
      have hlen : st.results.length + 1 ≠ count := by
        apply hjs
        · omega
        · omega
      rw [msgEvents_cons, List.foldl_cons,
        waiterStep_collect_grow cond count st a b hreg hc hlen]
      have ihres := ih { st with results := st.results ++ [b] } hreg
        (by intro j h1 h2; simp at h1 h2; exact hjs j (by omega) (by omega))
      rw [ihres]
      simp

/-- Messages matching nobody leave any waiter unchanged. -/
lemma run_quiet (cond : Msg → Bool) (mode : Mode) :
    ∀ (ms : List (Nat × Msg)) (st : WaiterSt Msg),
      (∀ tm ∈ ms, cond tm.2 = false) →
      (msgEvents ms).foldl (waiterStep cond mode) st = st := by
  intro ms
  induction ms with
  | nil => intro st _; rfl
  | cons tm ms ih =>
    intro st h
    rw [msgEvents_cons, List.foldl_cons,
      waiterStep_msg_noMatch cond mode st tm.1 tm.2 (h tm (List.mem_cons_self tm ms))]
    exact ih st fun x hx => h x (List.mem_cons_of_mem tm hx)

/-- A silence waiter settles at the first matching delivered message:
rejected with the constant error, at that message's arrival time. -/
lemma silence_run_firstMatch (cond : Msg → Bool) :
    ∀ (ms : List (Nat × Msg)) (st : WaiterSt Msg) (t : Nat) (m : Msg),
      st.inRegistry = true →
      ms.find? (fun tm => cond tm.2) = some (t, m) →
      (msgEvents ms).foldl (waiterStep cond Mode.silence) st
        = { st with
            inRegistry := false, timerActive := false,
            outcome := some (Outcome.unexpectedErr silenceErrorMessage),
            settledAt := some t } := by
  intro ms
  induction ms with
  | nil => intro st t m _ hf; simp at hf
  | cons tm ms ih =>
    intro st t m hreg hf
    obtain ⟨a, b⟩ := tm
    cases hc : cond b with
    | true =>
      rw [List.find?_cons_of_pos _ (by simpa using hc)] at hf
      have h1 : a = t ∧ b = m := by simpa using hf
      obtain ⟨rfl, rfl⟩ := h1
      rw [msgEvents_cons, List.foldl_cons, waiterStep_silence_hit cond st a b hreg hc]
      exact foldl_waiterStep_frozen cond Mode.silence (msgEvents ms) _ rfl rfl
    | false =>
      rw [List.find?_cons_of_neg _ (by simp [hc])] at hf
      rw [msgEvents_cons, List.foldl_cons,
        waiterStep_msg_noMatch cond Mode.silence st a b hc]
      exact ih st t m hreg hf

/-- Closed form of a `count = 1` collect run: it settles exactly at the first
matching message. -/
lemma collect_one_run (cond : Msg → Bool) :
    ∀ ms : List (Nat × Msg),
      (msgEvents ms).foldl (waiterStep cond (Mode.collect 1)) waiterInit
        = match ms.find? (fun tm => cond tm.2) with
          | some tm => ⟨false, false, [tm.2], some (Outcome.resolvedList [tm.2]), some tm.1⟩
          | none => waiterInit := by
  intro ms
  induction ms with
  | nil => rfl
  | cons tm ms ih =>
    obtain ⟨a, b⟩ := tm
    cases hc : cond b with
    | true =>
      rw [msgEvents_cons, List.foldl_cons,
        waiterStep_collect_hit cond 1 waiterInit a b rfl hc (by simp [waiterInit])]
      rw [foldl_waiterStep_frozen cond (Mode.collect 1) (msgEvents ms) _ rfl rfl]
      rw [List.find?_cons_of_pos _ (by simpa using hc)]
      simp [waiterInit]
    | false =>
      rw [msgEvents_cons, List.foldl_cons,
        waiterStep_msg_noMatch cond (Mode.collect 1) waiterInit a b hc,
        List.find?_cons_of_neg _ (by simp [hc])]
      exact ih

/-! ### Runs of the named-export client -/

lemma oldStep_msg_noMatch (pred : Msg → Bool) (st : OldSt Msg) (t : Nat) (m : Msg)
    (h : pred m = false) : oldStep pred st (Event.msg t m) = st := by
  simp [oldStep, h]

lemma oldStep_msg_match (pred : Msg → Bool) (st : OldSt Msg) (t : Nat) (m : Msg)
    (hl : st.listenerOn = true) (h : pred m = true) :
    oldStep pred st (Event.msg t m)
      = ⟨false, false, some (st.outcome.getD (OldOutcome.resolvedMsg m))⟩ := by
  simp [oldStep, hl, h]

lemma oldStep_timer_on (pred : Msg → Bool) (st : OldSt Msg) (t : Nat)
    (h : st.timerActive = true) :
    oldStep pred st (Event.timerFire t)
      = { st with
          timerActive := false,
          outcome := some (st.outcome.getD OldOutcome.waitTimeoutErr) } := by
  simp [oldStep, h]

lemma oldStep_frozen (pred : Msg → Bool) (st : OldSt Msg) (e : Event Msg)
    (h1 : st.listenerOn = false) (h2 : st.timerActive = false) :
    oldStep pred st e = st := by
  cases e with
  | msg t m => simp [oldStep, h1]
  | timerFire t => simp [oldStep, h2]

lemma foldl_oldStep_frozen (pred : Msg → Bool) :
    ∀ (es : List (Event Msg)) (st : OldSt Msg),
      st.listenerOn = false → st.timerActive = false →
      es.foldl (oldStep pred) st = st := by
  intro es
  induction es with
  | nil => intro st _ _; rfl
  | cons e es ih =>
    intro st h1 h2
    rw [List.foldl_cons, oldStep_frozen pred st e h1 h2]
    exact ih st h1 h2

/-- Closed form of the named-export listener over a message sequence: it
settles exactly at the first matching message. -/
lemma old_run (pred : Msg → Bool) :
    ∀ ms : List (Nat × Msg),
      (msgEvents ms).foldl (oldStep pred) oldInit
        = match ms.find? (fun tm => pred tm.2) with
          | some tm => ⟨false, false, some (OldOutcome.resolvedMsg tm.2)⟩
          | none => oldInit := by
  intro ms
  induction ms with
  | nil => rfl
  | cons tm ms ih =>
    obtain ⟨a, b⟩ := tm
    cases hc : pred b with
    | true =>
      rw [msgEvents_cons, List.foldl_cons, oldStep_msg_match pred oldInit a b rfl hc]
      rw [foldl_oldStep_frozen pred (msgEvents ms) _ rfl rfl]
      rw [List.find?_cons_of_pos _ (by simpa using hc)]
      simp [oldInit]
    | false =>
      rw [msgEvents_cons, List.foldl_cons, oldStep_msg_noMatch pred oldInit a b hc,
        List.find?_cons_of_neg _ (by simp [hc])]
      exact ih

/-! ### Live-iteration dispatch lemmas -/

lemma setAdd_extend (s : List Nat) (x : Nat) : ∃ u, setAdd s x = s ++ u := by
  unfold setAdd
  by_cases h : x ∈ s
  · exact ⟨[], by simp [h]⟩
  · exact ⟨[x], by simp [h]⟩

lemma setAddAll_extend (xs : List Nat) : ∀ s : List Nat, ∃ u, setAddAll s xs = s ++ u := by
  induction xs with
  | nil => intro s; exact ⟨[], by simp [setAddAll]⟩
  | cons x xs ih =>
    intro s
    obtain ⟨u1, h1⟩ := setAdd_extend s x
    obtain ⟨u2, h2⟩ := ih (setAdd s x)
    refine ⟨u1 ++ u2, ?_⟩
    simp only [setAddAll, List.foldl_cons] at h2 ⊢
    rw [h2, h1, List.append_assoc]

lemma setAdd_nodup (s : List Nat) (x : Nat) (h : s.Nodup) : (setAdd s x).Nodup := by
  unfold setAdd
  by_cases hx : x ∈ s
  · simpa [hx]
  · simp only [hx, if_false]
    rw [List.nodup_append]
    refine ⟨h, List.nodup_singleton x, ?_⟩
    intro a ha hax
    rw [List.mem_singleton] at hax
    exact hx (hax ▸ ha)

lemma setAddAll_nodup (xs : List Nat) : ∀ s : List Nat, s.Nodup → (setAddAll s xs).Nodup := by
  induction xs with
  | nil => intro s h; simpa [setAddAll]
  | cons x xs ih =>
    intro s h
    simp only [setAddAll, List.foldl_cons]
    exact ih (setAdd s x) (setAdd_nodup s x h)

/-- Any handler at position `j` of the registry is visited once the iteration
has spent enough fuel to pass it (it advances one position per step, and the
registry only grows at the end). -/
lemma forEachVisit_covers (adds : Nat → List Nat) :
    ∀ (fuel : Nat) (s : List Nat) (i j x : Nat), s[j]? = some x → j < i + fuel →
      x ∈ forEachVisit adds fuel s i := by
  intro fuel
  induction fuel with
  | zero =>
    intro s i j x hjx hji
    simp only [forEachVisit]
    refine List.getElem?_mem (show (s.take i)[j]? = some x from ?_)
    rw [List.getElem?_take, if_pos (by omega)]
    exact hjx
  | succ fuel ih =>
    intro s i j x hjx hji
    cases hgi : s[i]? with
    | none =>
      simp only [forEachVisit, hgi]
      have hlen : s.length ≤ i := by
        simpa using List.getElem?_eq_none_iff.mp hgi
      have hj : j < s.length := by
        by_contra hc
        rw [List.getElem?_eq_none_iff.mpr (by omega)] at hjx
        cases hjx
      refine List.getElem?_mem (show (s.take i)[j]? = some x from ?_)
      rw [List.getElem?_take, if_pos (by omega)]
      exact hjx
    | some h0 =>
      simp only [forEachVisit, hgi]
      obtain ⟨u, hu⟩ := setAddAll_extend (adds h0) s
      have hj : j < s.length := by
        by_contra hc
        rw [List.getElem?_eq_none_iff.mpr (by omega)] at hjx
        cases hjx
      have hjx2 : (setAddAll s (adds h0))[j]? = some x := by
        rw [hu, List.getElem?_append, if_pos hj]
        exact hjx
      exact ih (setAddAll s (adds h0)) (i + 1) j x hjx2 (by omega)

lemma forEachVisit_nodup (adds : Nat → List Nat) :
    ∀ (fuel : Nat) (s : List Nat) (i : Nat), s.Nodup → (forEachVisit adds fuel s i).Nodup := by
  intro fuel
  induction fuel with
  | zero =>
    intro s i h
    simp only [forEachVisit]
    exact h.sublist (List.take_sublist i s)
  | succ fuel ih =>
    intro s i h
    simp only [forEachVisit]
    cases hgi : s[i]? with
    | none => exact h.sublist (List.take_sublist i s)
    | some h0 => exact ih _ _ (setAddAll_nodup (adds h0) s h)

/-! ### Idempotent cleanup -/

lemma setDelete_idem (s : List Nat) (x : Nat) : setDelete (setDelete s x) x = setDelete s x := by
  unfold setDelete
  rw [List.filter_filter]
  simp

/-- Complete case analysis of a `waitForSilence` run: either no delivered
message matches and the window resolves at its end, or the run is rejected
with the constant error at the time of the first matching message. -/
lemma waitForSilence_cases (cond : Msg → Bool) (T : Nat) (trace : List (Nat × Msg)) :
    (matchesBefore cond T trace = []
        ∧ waitForSilence cond T trace = Outcome.silenceOk
        ∧ (runWait cond Mode.silence T trace).settledAt = some T)
      ∨ (∃ t m, (delivered T trace).find? (fun tm => cond tm.2) = some (t, m)
          ∧ matchesBefore cond T trace ≠ []
          ∧ waitForSilence cond T trace = Outcome.unexpectedErr silenceErrorMessage
          ∧ (runWait cond Mode.silence T trace).settledAt = some t
          ∧ t < T) := by
  cases hfind : (delivered T trace).find? (fun tm => cond tm.2) with
  | none =>
    left
    have hquiet : ∀ tm ∈ delivered T trace, cond tm.2 = false := by
      intro tm htm
      have := List.find?_eq_none.mp hfind tm htm
      simpa using this
    have hempty : matchesBefore cond T trace = [] := by
      unfold matchesBefore
      rw [List.filter_eq_nil_iff]
      intro x hx
      obtain ⟨tm, htm, rfl⟩ := List.mem_map.mp hx
      simp [hquiet tm htm]
    have hrun : runWait cond Mode.silence T trace
        = { waiterInit with
            inRegistry := false, timerActive := false,
            outcome := some Outcome.silenceOk, settledAt := some T } := by
      unfold runWait eventsOf
      rw [List.foldl_append, run_quiet cond Mode.silence (delivered T trace) waiterInit hquiet]
      rw [List.foldl_cons, List.foldl_nil]
      exact waiterStep_timer_silence cond waiterInit T rfl
    refine ⟨hempty, ?_, ?_⟩
    · unfold waitForSilence
      rw [hrun]
      rfl
    · rw [hrun]
  | some tm =>
    obtain ⟨t, m⟩ := tm
    right
    have hmem := List.mem_of_find?_eq_some hfind
    have hcnd : cond m = true := by simpa using List.find?_some hfind
    have htT : t < T := by
      have hmem2 : (t, m) ∈ trace.filter (fun tm => tm.1 < T) := hmem
      have := List.of_mem_filter hmem2
      simpa using this
    have hrun : runWait cond Mode.silence T trace
        = { waiterInit with
            inRegistry := false, timerActive := false,
            outcome := some (Outcome.unexpectedErr silenceErrorMessage),
            settledAt := some t } := by
      unfold runWait eventsOf
      rw [List.foldl_append,
        silence_run_firstMatch cond (delivered T trace) waiterInit t m rfl hfind]
      rw [List.foldl_cons, List.foldl_nil]
      exact waiterStep_timer_cleared cond Mode.silence _ T rfl
    have hne : matchesBefore cond T trace ≠ [] := by
      have hmm : m ∈ matchesBefore cond T trace :=
        List.mem_filter.mpr ⟨List.mem_map.mpr ⟨(t, m), hmem, rfl⟩, hcnd⟩
      exact List.ne_nil_of_mem hmm
    refine ⟨t, m, rfl, hne, ?_, ?_, htT⟩
    · unfold waitForSilence
      rw [hrun]
      rfl
    · rw [hrun]

/-! ### The claims -/

/-- C1: for every predicate, every `N ≥ 1` and every timeout `T`, if at
least `N` messages satisfying the predicate are dispatched strictly before
`T` elapses, `waitFor(P, N, T)` resolves with exactly the first `N` matching
messages, in receipt order, and never more than `N`. -/
theorem waitFor_collects (cond : Msg → Bool) (N T : Nat) (trace : List (Nat × Msg))
    (hN : 1 ≤ N) (hmat : N ≤ (matchesBefore cond T trace).length) :
    waitFor cond N T trace
        = Outcome.resolvedList ((matchesBefore cond T trace).take N)
      ∧ ((matchesBefore cond T trace).take N).length = N := by
  have hmid := collect_run_settles cond N (delivered T trace) waiterInit rfl
    (by simp [waiterInit]; omega)
    (by simp only [matchesBefore] at hmat; simpa [waiterInit] using hmat)
  have hflags := foldl_waiterStep_inv cond (Mode.collect N) (msgEvents (delivered T trace))
    waiterInit (by intro hs; simp [waiterInit] at hs) (by rw [hmid]; rfl)
  constructor
  · unfold waitFor runWait eventsOf
    rw [List.foldl_append, List.foldl_cons, List.foldl_nil]
    rw [waiterStep_frozen cond (Mode.collect N) _ (Event.timerFire T) hflags.1 hflags.2]
    rw [hmid]
    rfl
  · rw [List.length_take]
    omega

/-- C1 witness: with `P = "is even"`, `N = 2`, `T = 10` and four messages of
which three match, the call resolves with the first two matches. -/
theorem waitFor_collects_witness :
    (1 ≤ 2
        ∧ 2 ≤ (matchesBefore (fun n => n % 2 == 0) 10 [(1, 2), (3, 5), (4, 6), (7, 8)]).length)
      ∧ (waitFor (fun n => n % 2 == 0) 2 10 [(1, 2), (3, 5), (4, 6), (7, 8)]
            = Outcome.resolvedList
                ((matchesBefore (fun n => n % 2 == 0) 10 [(1, 2), (3, 5), (4, 6), (7, 8)]).take 2)
          ∧ ((matchesBefore (fun n => n % 2 == 0) 10 [(1, 2), (3, 5), (4, 6), (7, 8)]).take 2).length = 2) :=
  ⟨⟨by decide, by decide⟩,
    waitFor_collects (fun n => n % 2 == 0) 2 10 [(1, 2), (3, 5), (4, 6), (7, 8)]
      (by decide) (by decide)⟩

/-- C2: for every waiter created by `waitFor` or `waitForSilence`, at most
one terminal outcome ever occurs: once some event sequence has settled the
promise, any further events (more dispatches, the timer firing) leave the
waiter's entire state unchanged — match-settlement and timer-settlement are
mutually exclusive, the first to occur wins and disables the other, and
there is no transition out of the settled state. -/
theorem settle_once (cond : Msg → Bool) (mode : Mode) (o : Outcome Msg)
    (es1 es2 : List (Event Msg))
    (h : (es1.foldl (waiterStep cond mode) waiterInit).outcome = some o) :
    (es1 ++ es2).foldl (waiterStep cond mode) waiterInit
      = es1.foldl (waiterStep cond mode) waiterInit := by
  have hflags := foldl_waiterStep_inv cond mode es1 waiterInit
    (by intro hs; simp [waiterInit] at hs) (by rw [h]; rfl)
  rw [List.foldl_append]
  exact foldl_waiterStep_frozen cond mode es2 _ hflags.1 hflags.2

/-- C2 witness: a collect-1 waiter settled by a matching message at time 3
is unchanged by the timer subsequently firing at time 5. -/
theorem settle_once_witness :
    (([Event.msg 3 (1 : Nat)].foldl (waiterStep (fun n => n == 1) (Mode.collect 1)) waiterInit).outcome
        = some (Outcome.resolvedList [1]))
      ∧ ([Event.msg 3 (1 : Nat), Event.timerFire 5].foldl
            (waiterStep (fun n => n == 1) (Mode.collect 1)) waiterInit
          = [Event.msg 3 (1 : Nat)].foldl (waiterStep (fun n => n == 1) (Mode.collect 1)) waiterInit) :=
  ⟨by decide,
    settle_once (fun n => n == 1) (Mode.collect 1) (Outcome.resolvedList [1])
      [Event.msg 3 (1 : Nat)] [Event.timerFire 5] (by decide)⟩

/-- C3: `waitForSilence(P, W)` succeeds if and only if no message satisfying
`P` is dispatched within the window; with at least one match it fails, and
it settles at the arrival time of the first match — strictly before the
window's end — not at window end. -/
theorem waitForSilence_spec (cond : Msg → Bool) (T : Nat) (trace : List (Nat × Msg)) :
    (waitForSilence cond T trace = Outcome.silenceOk ↔ matchesBefore cond T trace = [])
      ∧ (matchesBefore cond T trace ≠ [] →
          waitForSilence cond T trace = Outcome.unexpectedErr silenceErrorMessage)
      ∧ (∀ t m, (delivered T trace).find? (fun tm => cond tm.2) = some (t, m) →
          (runWait cond Mode.silence T trace).settledAt = some t ∧ t < T) := by
  rcases waitForSilence_cases cond T trace with ⟨hempty, hok, _⟩ |
    ⟨t, m, hfind, hne, hfail, hat, htT⟩
  · refine ⟨⟨fun _ => hempty, fun _ => hok⟩, fun hne => absurd hempty hne, ?_⟩
    intro t m hf
    exfalso
    have hmem := List.mem_of_find?_eq_some hf
    have hcnd : cond m = true := by simpa using List.find?_some hf
    have hmm : m ∈ matchesBefore cond T trace :=
      List.mem_filter.mpr ⟨List.mem_map.mpr ⟨(t, m), hmem, rfl⟩, hcnd⟩
    rw [hempty] at hmm
    cases hmm
  · refine ⟨⟨?_, ?_⟩, fun _ => hfail, ?_⟩
    · intro h0
      rw [hfail] at h0
      simp at h0
    · intro h0
      exact absurd h0 hne
    · intro t2 m2 hf2
      rw [hfind] at hf2
      have h12 := Option.some.inj hf2
      injection h12 with h1 h2
      subst h1
      exact ⟨hat, htT⟩

/-- C3 witness: with `P = "equals 7"` and window 10, a trace whose first
match arrives at time 4 settles the silence waiter at time 4, before the
window's end. -/
theorem waitForSilence_spec_witness :
    ((delivered 10 [(2, 3), (4, 7), (6, 7)]).find? (fun tm => tm.2 == 7) = some (4, 7))
      ∧ ((runWait (fun n => n == 7) Mode.silence 10 [(2, 3), (4, 7), (6, 7)]).settledAt = some 4
          ∧ 4 < 10) :=
  ⟨by decide,
    (waitForSilence_spec (fun n => n == 7) 10 [(2, 3), (4, 7), (6, 7)]).2.2 4 7 (by decide)⟩

/-- C4: a `waitFor` whose deadline elapses with fewer than `N` matches
accumulated rejects with the timeout error carrying the partial count
received so far and the target count. -/
theorem waitFor_timeout (cond : Msg → Bool) (N T : Nat) (trace : List (Nat × Msg))
    (hmat : (matchesBefore cond T trace).length < N) :
    waitFor cond N T trace = Outcome.timeoutErr (matchesBefore cond T trace).length N := by
  have hmid := collect_run_noSettle cond N (delivered T trace) waiterInit rfl
    (by
      intro j h1 h2
      simp [waiterInit] at h1 h2
      simp only [matchesBefore] at hmat
      omega)
  unfold waitFor runWait eventsOf
  rw [List.foldl_append, hmid, List.foldl_cons, List.foldl_nil]
  rw [waiterStep_timer_collect cond N _ T rfl]
  simp [waiterInit, matchesBefore]

/-- C4 witness: `waitFor(P, 3, T)` observing exactly 2 matches before the
deadline rejects with a timeout reporting 2 of 3. -/
theorem waitFor_timeout_witness :
    ((matchesBefore (fun n => n == 0) 10 [(1, 0), (2, 5), (3, 0)]).length < 3
        ∧ (matchesBefore (fun n => n == 0) 10 [(1, 0), (2, 5), (3, 0)]).length = 2)
      ∧ waitFor (fun n => n == 0) 3 10 [(1, 0), (2, 5), (3, 0)]
          = Outcome.timeoutErr (matchesBefore (fun n => n == 0) 10 [(1, 0), (2, 5), (3, 0)]).length 3 :=
  ⟨⟨by decide, by decide⟩,
    waitFor_timeout (fun n => n == 0) 3 10 [(1, 0), (2, 5), (3, 0)] (by decide)⟩

/-- C5 counterexample: the dispatcher does not iterate a snapshot of the
registry taken at dispatch start.  With one registered handler (id 0) whose
re-entrant registration adds handler 1, JS `Set.prototype.forEach` live
iteration visits `[0, 1]` — the newly added handler does receive the very
message being delivered — while snapshot iteration would visit only `[0]`. -/
theorem snapshot_dispatch_cex :
    forEachVisit (fun n => if n = 0 then [1] else []) 3 [0] 0
          ≠ forEachSnapshot (fun n => if n = 0 then [1] else []) [0]
      ∧ forEachVisit (fun n => if n = 0 then [1] else []) 3 [0] 0 = [0, 1]
      ∧ (1 : Nat) ∉ forEachSnapshot (fun n => if n = 0 then [1] else []) [0] := by
  decide

/-- C5 (amended): on each inbound message the dispatcher delivers
synchronously to the live registry per JS `Set.prototype.forEach`: every
handler present at dispatch start is visited (given fuel at least the
registry's size), each handler at most once — re-entrant registration from
inside a predicate does not corrupt the iteration, and a handler registered
during delivery of the same message may itself be visited. -/
theorem dispatch_live_delivers (adds : Nat → List Nat) (fuel : Nat) (s : List Nat)
    (hfuel : s.length ≤ fuel) :
    (∀ x ∈ s, x ∈ forEachVisit adds fuel s 0)
      ∧ (s.Nodup → (forEachVisit adds fuel s 0).Nodup) := by
  constructor
  · intro x hx
    obtain ⟨j, hjx⟩ := List.mem_iff_getElem?.mp hx
    have hj : j < s.length := by
      by_contra hc
      rw [List.getElem?_eq_none_iff.mpr (by omega)] at hjx
      cases hjx
    exact forEachVisit_covers adds fuel s 0 j x hjx (by omega)
  · intro hnd
    exact forEachVisit_nodup adds fuel s 0 hnd

/-- C5 witness: a registry `[5, 9]` where handler 5 re-entrantly registers
handlers 9 (already present) and 11; with fuel 4 both original handlers are
visited and the visit order has no duplicates. -/
theorem dispatch_live_delivers_witness :
    (([5, 9] : List Nat).length ≤ 4)
      ∧ ((∀ x ∈ ([5, 9] : List Nat), x ∈ forEachVisit (fun n => if n = 5 then [9, 11] else []) 4 [5, 9] 0)
          ∧ (([5, 9] : List Nat).Nodup →
              (forEachVisit (fun n => if n = 5 then [9, 11] else []) 4 [5, 9] 0).Nodup)) :=
  ⟨by decide,
    dispatch_live_delivers (fun n => if n = 5 then [9, 11] else []) 4 [5, 9] (by decide)⟩

/-- C6: the source evaluates caller-supplied predicates with no try/catch
inside the `forEach` delivery loop.  Evaluated at the failing input — a
registry holding a throwing waiter followed by a match-all waiter, and an
inbound message — the exception escapes the delivery loop (`.error`) and the
second waiter never receives the message (its accumulator stays empty),
whereas delivering to the second waiter alone would hand it the message. -/
theorem dispatchExc_escape :
    dispatchExc (0 : Nat) [excThrowing, excCollecting]
        = Except.error ("boom", [excThrowing, excCollecting])
      ∧ [excThrowing, excCollecting].map (fun w => w.results) = [[], []]
      ∧ dispatchExc (0 : Nat) [excCollecting]
          = Except.ok [{ excCollecting with results := [0] }] :=
  ⟨rfl, rfl, rfl⟩

/-- C7 counterexample: the rejection of a failed silence wait does not carry
the offending message.  Two windows violated by different messages (5 at
time 1, resp. 7 at time 1) reject with identical error values — the fixed
string `Message received during silence window` — so the error determines no
offending message. -/
theorem silence_error_no_payload_cex :
    waitForSilence (fun n => decide (0 < n)) 10 [(1, 5)]
          = waitForSilence (fun n => decide (0 < n)) 10 [(1, 7)]
      ∧ waitForSilence (fun n => decide (0 < n)) 10 [(1, 5)]
          = Outcome.unexpectedErr silenceErrorMessage
      ∧ (5 : Nat) ≠ 7 := by
  decide

/-- C7 (amended): whenever `waitForSilence` fails because a matching message
arrived before its window elapsed, it fails with the fixed error
`Message received during silence window`, which does not carry the
offending message. -/
theorem waitForSilence_error_constant (cond : Msg → Bool) (T : Nat)
    (trace : List (Nat × Msg)) (h : matchesBefore cond T trace ≠ []) :
    waitForSilence cond T trace = Outcome.unexpectedErr silenceErrorMessage := by
  rcases waitForSilence_cases cond T trace with ⟨hempty, _, _⟩ | ⟨t, m, _, _, hfail, _, _⟩
  · exact absurd hempty h
  · exact hfail

/-- C7 amended-claim witness: a violated window rejects with exactly the
constant error string. -/
theorem waitForSilence_error_constant_witness :
    (matchesBefore (fun n => decide (0 < n)) 10 [(1, 5)] ≠ [])
      ∧ waitForSilence (fun n => decide (0 < n)) 10 [(1, 5)]
          = Outcome.unexpectedErr silenceErrorMessage :=
  ⟨by decide,
    waitForSilence_error_constant (fun n => decide (0 < n)) 10 [(1, 5)] (by decide)⟩

/-- C8: the waiter's `cleanup()` (clear the timer, delete the handler from
the registry) is idempotent — running it twice, as when the match path and
the timer path race, has exactly the same observable effect on the registry
and the timer as running it once. -/
theorem cleanup_idem (h : Nat) (st : CleanupObs) :
    cleanup h (cleanup h st) = cleanup h st := by
  unfold cleanup
  rw [setDelete_idem]

/-- C9: `waitFor` with `count = 0` never resolves, no matter how many
matching messages arrive: the length check runs only after a match is
pushed, so the accumulator length is at least 1 whenever compared, and the
call always rejects at the deadline (reporting all accumulated matches out
of 0). -/
theorem waitFor_count_zero (cond : Msg → Bool) (T : Nat) (trace : List (Nat × Msg)) :
    waitFor cond 0 T trace = Outcome.timeoutErr (matchesBefore cond T trace).length 0 := by
  have hmid := collect_run_noSettle cond 0 (delivered T trace) waiterInit rfl
    (by
      intro j h1 h2
      simp [waiterInit] at h1
      omega)
  unfold waitFor runWait eventsOf
  rw [List.foldl_append, hmid, List.foldl_cons, List.foldl_nil]
  rw [waiterStep_timer_collect cond 0 _ T rfl]
  simp [waiterInit, matchesBefore]

/-- C10: on the same inbound message sequence, the named-export
`waitFor(P, T)` and the default-export `waitFor(P, 1, T)` are observably
equivalent: both settle at the first matching message (the old variant
resolving with the message itself, the new with the singleton list
containing it) and both reject when `T` elapses with no match. -/
theorem old_new_equiv (pred : Msg → Bool) (T : Nat) (trace : List (Nat × Msg)) :
    waitFor pred 1 T trace = oldToNew (oldWaitFor pred T trace) := by
  unfold waitFor oldWaitFor runWait eventsOf
  rw [List.foldl_append, List.foldl_append]
  rw [collect_one_run pred (delivered T trace), old_run pred (delivered T trace)]
  cases hfind : (delivered T trace).find? (fun tm => pred tm.2) with
  | none =>
    dsimp only
    rw [List.foldl_cons, List.foldl_nil, List.foldl_cons, List.foldl_nil]
    rw [waiterStep_timer_collect pred 1 waiterInit T rfl,
      oldStep_timer_on pred oldInit T rfl]
    rfl
  | some tm =>
    dsimp only
    rw [List.foldl_cons, List.foldl_nil, List.foldl_cons, List.foldl_nil]
    rw [waiterStep_timer_cleared pred (Mode.collect 1) _ T rfl,
      oldStep_frozen pred _ (Event.timerFire T) rfl rfl]
    rfl

end KrakenWS
